import Mathlib

/-
Verification of the position & realized-profit ledger of the AlphaNex
repository (stock_monitor.py, stock_monitor_ollama_only.py, trade.py).

The ledger state of StockMonitor is a pair of Python structures that share
the very same dict objects: `self.transactions` (the history) and
`self.open_positions[symbol]` (the per-symbol open-lot lists, whose entries
alias dicts stored in `self.transactions`).  We model that sharing with a
heap: `Ledger.recs` holds the transaction records (in history order) and
`Ledger.openPos` maps a symbol to the list of order ids of its open lots;
an id refers to the record in `recs` carrying that `orderId`.  Mutating the
open lot and mutating "the record with the same order id found in the
history" (as stock_monitor.py does in two separate steps) then hit the same
record, exactly as in Python when order ids are distinct.
-/

set_option maxRecDepth 8000

namespace AlphaNex

/-- Python `int()` on a rational: truncation toward zero. -/
def pyInt (x : ℚ) : ℤ := if 0 ≤ x then ⌊x⌋ else -⌊-x⌋

/-- String constants used by the embedding (the `action` field values of
stock_monitor.py transactions). -/
def actBuy : String := "buy"

/-- Action tag of sell transactions. -/
def actSell : String := "sell"

/-- A concrete symbol used by witness scenarios. -/
def symX : String := "AAPL"

/-- A second, distinct symbol used by frame-property scenarios. -/
def symY : String := "MSFT"

/-- Concrete order ids used by witness scenarios. -/
def idA : String := "b1"

/-- Second concrete order id. -/
def idB : String := "b2"

/-- Third concrete order id. -/
def idC : String := "b3"

/-- Fourth concrete order id. -/
def idD : String := "b4"

/-- A broker-assigned order id for witness scenarios. -/
def oidX : String := "o1"

/-- A locally generated (mock) order id for witness scenarios. -/
def mockX : String := "m1"

/-- One entry of the `matched_buys` list built by
`StockMonitor.calculate_profit` (stock_monitor.py lines 183-190). -/
structure MatchInfo where
  buyOrderId : String
  buyPrice : ℚ
  matchQuantity : ℚ
  profit : ℚ
  profitPercent : ℚ
deriving DecidableEq

/-- A transaction record (`order_info` dict of stock_monitor.py): symbol,
action ('buy'/'sell'), quantity, price, order id, the `closed` flag of buy
records, the simulated marker of the fallback path, and the profit fields
attached to sell records. -/
structure Txn where
  symbol : String
  action : String
  quantity : ℚ
  price : ℚ
  orderId : String
  closed : Bool
  simulated : Bool
  profit : Option ℚ
  profitPercent : Option ℚ
  matchedBuys : List MatchInfo
deriving DecidableEq

/-- A freshly recorded buy transaction (`order_info` of a buy in
`place_order`: open, not simulated, no profit fields). -/
def mkBuy (s id : String) (q p : ℚ) : Txn :=
  ⟨s, actBuy, q, p, id, false, false, none, none, []⟩

/-- The ledger heap: `recs` is `self.transactions` (history order), and
`openPos` maps a symbol to the order ids of the records aliased into
`self.open_positions[symbol]`, in insertion order. -/
structure Ledger where
  recs : List Txn
  openPos : List (String × List String)
deriving DecidableEq

/-- Lookup of a per-symbol open-lot list (`self.open_positions[symbol]`,
empty when the symbol is absent). -/
def openFor : List (String × List String) → String → List String
  | [], _ => []
  | (k, l) :: rest, s => if k = s then l else openFor rest s

/-- Replace (or insert) the open-lot list of one symbol. -/
def assocSet : List (String × List String) → String → List String → List (String × List String)
  | [], k, l => [(k, l)]
  | (k1, l1) :: rest, k, l => if k1 = k then (k, l) :: rest else (k1, l1) :: assocSet rest k l

/-- `self.open_positions[symbol].append(orderId)` on a defaultdict. -/
def assocAppend (m : List (String × List String)) (k id : String) :
    List (String × List String) :=
  assocSet m k (openFor m k ++ [id])

/-- First record of the history carrying a given order id — the record the
loops `for t in self.transactions: if t['order_id'] == ...` find. -/
def findTxn : List Txn → String → Option Txn
  | [], _ => none
  | t :: ts, id => if t.orderId = id then some t else findTxn ts id

/-- Update the first record carrying a given order id, as those loops do
before `break`ing. -/
def updFirst (id : String) (f : Txn → Txn) : List Txn → List Txn
  | [] => []
  | t :: ts => if t.orderId = id then f t :: ts else t :: updFirst id f ts

/-- `list.remove` of an open lot, with lots identified by order id. -/
def eraseId : List String → String → List String
  | [], _ => []
  | x :: xs, id => if x = id then xs else x :: eraseId xs id

/-- Quantity currently recorded for an order id (0 when absent). -/
def lotQ (recs : List Txn) (id : String) : ℚ :=
  match findTxn recs id with
  | some t => t.quantity
  | none => 0

/-- Price currently recorded for an order id (0 when absent). -/
def lotP (recs : List Txn) (id : String) : ℚ :=
  match findTxn recs id with
  | some t => t.price
  | none => 0

/-- State threaded through the matching loop of
`StockMonitor.calculate_profit` (stock_monitor.py lines 167-216):
the history heap, the live open-lot list of the symbol, the remaining sell
quantity, the `matched_buys` accumulator and the running `total_profit`. -/
structure LoopState where
  recs : List Txn
  opn : List String
  remaining : ℚ
  matched : List MatchInfo
  total : ℚ
deriving DecidableEq

/-- The FIFO matching loop of stock_monitor.py lines 169-216, iterating over
a snapshot (`list(self.open_positions[symbol])`) of the open-lot ids.  On a
full match the record is marked closed, removed from the live open list, and
the history record with the same order id is marked closed again (lines
199-207).  On a partial match the record quantity is decremented and then
the history record with the same order id — the very same aliased record —
is decremented once more (lines 208-216). -/
def matchLoop (sellPrice : ℚ) : List String → LoopState → LoopState
  | [], st => st
  | id :: rest, st =>
    if st.remaining ≤ 0 then st
    else
      match findTxn st.recs id with
      | none => matchLoop sellPrice rest st
      | some r =>
        let mq := min st.remaining r.quantity
        let buyCost := r.price * mq
        let stepProfit := sellPrice * mq - buyCost
        let pct : ℚ := if 0 < buyCost then stepProfit / buyCost * 100 else 0
        let info : MatchInfo := ⟨id, r.price, mq, stepProfit, pct⟩
        if mq = r.quantity then
          let recs1 := updFirst id (fun t => { t with closed := true }) st.recs
          let opn1 := eraseId st.opn id
          let recs2 := updFirst id (fun t => { t with closed := true }) recs1
          matchLoop sellPrice rest
            ⟨recs2, opn1, st.remaining - mq, st.matched ++ [info], st.total + stepProfit⟩
        else
          let recs1 := updFirst id (fun t => { t with quantity := t.quantity - mq }) st.recs
          let recs2 := updFirst id (fun t => { t with quantity := t.quantity - mq }) recs1
          matchLoop sellPrice rest
            ⟨recs2, st.opn, st.remaining - mq, st.matched ++ [info], st.total + stepProfit⟩

/-- The `profit_details` dict returned by `calculate_profit`. -/
structure ProfitDetails where
  totalProfit : ℚ
  totalProfitPercent : ℚ
  matchedBuys : List MatchInfo
  unmatchedQuantity : ℚ
deriving DecidableEq

/-- `StockMonitor.calculate_profit` (stock_monitor.py lines 138-231): early
return when the symbol has no open lots; otherwise run the FIFO loop, record
any unmatched remainder, and compute the total profit percentage from the
matched buys. -/
def calcProfit (L : Ledger) (symbol : String) (sellQuantity sellPrice : ℚ) :
    ProfitDetails × Ledger :=
  let opn := openFor L.openPos symbol
  if opn = [] then
    (⟨0, 0, [], sellQuantity⟩, L)
  else
    let res := matchLoop sellPrice opn ⟨L.recs, opn, sellQuantity, [], 0⟩
    let unmatched := if 0 < res.remaining then res.remaining else 0
    let totalCost := (res.matched.map (fun b => b.buyPrice * b.matchQuantity)).sum
    let pct : ℚ :=
      if res.total ≠ 0 then (if 0 < totalCost then res.total / totalCost * 100 else 0) else 0
    (⟨res.total, pct, res.matched, unmatched⟩,
     ⟨res.recs, assocSet L.openPos symbol res.opn⟩)

/-- Ledger state after two buys of the same symbol — the configuration of
the spec's FIFO and partial-match test properties. -/
def twoLotLedger (s id1 id2 : String) (q1 p1 q2 p2 : ℚ) : Ledger :=
  ⟨[mkBuy s id1 q1 p1, mkBuy s id2 q2 p2], [(s, [id1, id2])]⟩

/-- View of an open lot as the spec describes it (id, quantity, price);
also the shape of one spec-level match (id, matched quantity, lot price). -/
structure LotView where
  id : String
  qty : ℚ
  price : ℚ
deriving DecidableEq

/-- Lot views of a symbol's open lots, oldest first. -/
def lotViews (L : Ledger) (s : String) : List LotView :=
  (openFor L.openPos s).map (fun id => ⟨id, lotQ L.recs id, lotP L.recs id⟩)

/-- Projection of a `matched_buys` entry to its spec-level view. -/
def matchView (i : MatchInfo) : LotView := ⟨i.buyOrderId, i.matchQuantity, i.buyPrice⟩

/-- Modelled from the spec (FIFOMatcher contract, spec section 4.2): consume
lots oldest-first, matching `min(remaining, lot.quantity)` against each lot,
and stop when the remaining quantity reaches 0 or no lots are left. -/
def specFIFO (remaining : ℚ) : List LotView → List LotView
  | [] => []
  | l :: rest =>
    if remaining ≤ 0 then []
    else ⟨l.id, min remaining l.qty, l.price⟩ :: specFIFO (remaining - min remaining l.qty) rest

/-- Modelled from the spec: realized profit of a list of matches at a given
sell price, `Σ matched * (sellPrice - lot.price)`. -/
def specProfit (sp : ℚ) (ms : List LotView) : ℚ :=
  (ms.map (fun m => m.qty * (sp - m.price))).sum

/-- Total matched quantity of a list of spec-level matches. -/
def specMatchedTotal (ms : List LotView) : ℚ := (ms.map (fun m => m.qty)).sum

/-- Configuration read by `place_order`: `fund_limit` (0 = unlimited),
`app.max_position`, and `app.fallback_to_simulated`. -/
structure OrderCfg where
  fundLimit : ℚ
  maxPosition : ℚ
  fallbackSim : Bool
deriving DecidableEq

/-- Per-symbol simulated position value (`self.stock_data[symbol]['position']`,
0 for untracked symbols). -/
def valOf : List (String × ℚ) → String → ℚ
  | [], _ => 0
  | (k, v) :: rest, s => if k = s then v else valOf rest s

/-- Replace (or insert) a symbol's simulated position value. -/
def valSet : List (String × ℚ) → String → ℚ → List (String × ℚ)
  | [], k, v => [(k, v)]
  | (k1, v1) :: rest, k, v => if k1 = k then (k, v) :: rest else (k1, v1) :: valSet rest k v

/-- The mutable state touched by `place_order`: the ledger plus the
simulated per-symbol position values. -/
structure MonState where
  ledger : Ledger
  posValue : List (String × ℚ)
deriving DecidableEq

/-- Fund-limit stage of a buy in `place_order` (stock_monitor.py lines
881-912): when a positive fund limit would be exceeded, the quantity is
adjusted to `int((fund_limit - used_funds) / price)`; a non-positive
adjustment aborts the order (`return None`). -/
def fundStage (fundLimit usedFunds quantity price : ℚ) : Option ℚ :=
  if 0 < fundLimit then
    if fundLimit < usedFunds + quantity * price then
      let adjusted := pyInt ((fundLimit - usedFunds) / price)
      if 0 < adjusted then some ((adjusted : ℤ) : ℚ) else none
    else some quantity
  else some quantity

/-- Position-limit stage of a buy in `place_order` (stock_monitor.py lines
914-923): when the simulated position value plus the transaction amount
exceeds `max_position`, the quantity becomes
`max(1, int((max_position - position) / price))` — the order is never
rejected at this stage. -/
def positionStage (maxPosition posValue quantity price : ℚ) : ℚ :=
  if maxPosition < posValue + quantity * price then
    max 1 ((pyInt ((maxPosition - posValue) / price) : ℤ) : ℚ)
  else quantity

/-- Post-submission bookkeeping of a successful broker order
(stock_monitor.py lines 944-988): build `order_info`; for a sell, run
`calculate_profit` and attach its results; for a buy, append the record to
the symbol's open lots with `closed=False`; append to the history; update
the simulated position value (clamped at 0 for sells). -/
def realFill (st : MonState) (sym act : String) (q p : ℚ) (oid : String) :
    Option Txn × MonState :=
  if act = actSell then
    let r := calcProfit st.ledger sym q p
    let tx : Txn := ⟨sym, act, q, p, oid, false, false,
      some r.1.totalProfit, some r.1.totalProfitPercent, r.1.matchedBuys⟩
    let led : Ledger := ⟨r.2.recs ++ [tx], r.2.openPos⟩
    let pv := valOf st.posValue sym - q * p
    (some tx, ⟨led, valSet st.posValue sym (if pv < 0 then 0 else pv)⟩)
  else
    let tx : Txn := ⟨sym, act, q, p, oid, false, false, none, none, []⟩
    let led : Ledger := ⟨st.ledger.recs ++ [tx], assocAppend st.ledger.openPos sym oid⟩
    (some tx, ⟨led, valSet st.posValue sym (valOf st.posValue sym + q * p)⟩)

/-- Simulated-fallback bookkeeping (stock_monitor.py lines 992-1038): the
same steps as `realFill` transcribed from the fallback branch, with a
locally generated order id and the simulated marker set. -/
def simFill (st : MonState) (sym act : String) (q p : ℚ) (mockId : String) :
    Option Txn × MonState :=
  if act = actSell then
    let r := calcProfit st.ledger sym q p
    let tx : Txn := ⟨sym, act, q, p, mockId, false, true,
      some r.1.totalProfit, some r.1.totalProfitPercent, r.1.matchedBuys⟩
    let led : Ledger := ⟨r.2.recs ++ [tx], r.2.openPos⟩
    let pv := valOf st.posValue sym - q * p
    (some tx, ⟨led, valSet st.posValue sym (if pv < 0 then 0 else pv)⟩)
  else
    let tx : Txn := ⟨sym, act, q, p, mockId, false, true, none, none, []⟩
    let led : Ledger := ⟨st.ledger.recs ++ [tx], assocAppend st.ledger.openPos sym mockId⟩
    (some tx, ⟨led, valSet st.posValue sym (valOf st.posValue sym + q * p)⟩)

/-- `StockMonitor.place_order` (stock_monitor.py lines 866-1040).  Buys go
through the fund-limit stage (abort on `None`) and the position-limit
clamp; the order is then submitted — `broker = some oid` models a broker
fill, `broker = none` a failed submission, which falls back to a simulated
fill when configured and otherwise returns `None` with the state intact.
`usedFunds` is the broker-derived used-funds figure of lines 889-897. -/
def placeOrder (cfg : OrderCfg) (st : MonState) (sym act : String)
    (q p usedFunds : ℚ) (broker : Option String) (mockId : String) :
    Option Txn × MonState :=
  match (if act = actBuy then fundStage cfg.fundLimit usedFunds q p else some q) with
  | none => (none, st)
  | some q1 =>
    let q2 := if act = actBuy then positionStage cfg.maxPosition (valOf st.posValue sym) q1 p else q1
    match broker with
    | some oid => realFill st sym act q2 p oid
    | none => if cfg.fallbackSim then simFill st sym act q2 p mockId else (none, st)

/-- The sell-quantity gate of `process_stock` (stock_monitor.py lines
1125-1147): a sell proceeds when the broker-reported available quantity or
the simulated position value is positive; the cap is `int(available)`, or,
when that is non-positive, `int(positionValue / price)` derived from the
simulated position; the executed quantity is the minimum of the requested
quantity and the cap, and a non-positive result places no order. -/
def processSellDecision (available posValue price requested : ℚ) : Option ℚ :=
  if 0 < available ∨ 0 < posValue then
    let maxSell : ℚ := ((pyInt available : ℤ) : ℚ)
    let maxSell2 := if maxSell ≤ 0 then ((pyInt (posValue / price) : ℤ) : ℚ) else maxSell
    let qty := min requested maxSell2
    if 0 < qty then some qty else none
  else none

/-- The sell branch of `process_stock`: gate the quantity, then call
`place_order` with it. -/
def processSell (cfg : OrderCfg) (st : MonState) (sym : String)
    (requested price available usedFunds : ℚ) (broker : Option String)
    (mockId : String) : Option Txn × MonState :=
  match processSellDecision available (valOf st.posValue sym) price requested with
  | some q => placeOrder cfg st sym actSell q price usedFunds broker mockId
  | none => (none, st)

/-- One step of the open-position rebuild of `load_transactions`
(stock_monitor.py lines 126-130): a buy transaction that is not closed is
appended to its symbol's open-lot list. -/
def rebuildStep (m : List (String × List String)) (t : Txn) :
    List (String × List String) :=
  if t.action = actBuy ∧ t.closed = false then assocAppend m t.symbol t.orderId else m

/-- Rebuild of `self.open_positions` from a transaction history, starting
from a fresh `defaultdict(list)`. -/
def rebuildOpen (txns : List Txn) : List (String × List String) :=
  txns.foldl rebuildStep []

/-- `StockMonitor.load_transactions` (stock_monitor.py lines 116-136):
replace the history with the file contents and rebuild the open positions
from scratch. -/
def loadTransactions (_L : Ledger) (file : List Txn) : Ledger :=
  ⟨file, rebuildOpen file⟩

/-- The transactions a rebuild replays for one symbol: its buy transactions
with `closed = false`, in history order. -/
def replayedFor : List Txn → String → List Txn
  | [], _ => []
  | t :: ts, s =>
    if t.action = actBuy ∧ t.closed = false ∧ t.symbol = s
    then t :: replayedFor ts s else replayedFor ts s

/-- Erase the simulated marker of a record (for comparing the real-fill and
simulated-fallback outcomes up to that flag). -/
def clearSim (t : Txn) : Txn := { t with simulated := false }

theorem pyInt_eq_floor {x : ℚ} (h : 0 ≤ x) : pyInt x = ⌊x⌋ := by
  simp [pyInt, h]

theorem pyInt_pos {x : ℚ} : 0 < pyInt x ↔ 1 ≤ x := by
  unfold pyInt
  split_ifs with h
  · rw [Int.lt_iff_add_one_le, zero_add, Int.le_floor]
    norm_num
  · constructor
    · intro hp
      have h0 : (0 : ℤ) ≤ ⌊-x⌋ := Int.floor_nonneg.mpr (by linarith [not_le.mp h])
      omega
    · intro h1
      exact absurd (le_trans zero_le_one h1) h

theorem pyInt_nonpos {x : ℚ} (h : ⌊x⌋ ≤ 0) : pyInt x ≤ 0 := by
  unfold pyInt
  split_ifs with h0
  · exact h
  · have hx : (0 : ℤ) ≤ ⌊-x⌋ := Int.floor_nonneg.mpr (by linarith [not_le.mp h0])
    omega

theorem findTxn_updFirst_of_ne (f : Txn → Txn) (hf : ∀ t, (f t).orderId = t.orderId)
    {id id2 : String} (h : id2 ≠ id) :
    ∀ recs, findTxn (updFirst id f recs) id2 = findTxn recs id2 := by
  intro recs
  induction recs with
  | nil => rfl
  | cons t ts ih =>
    by_cases h1 : t.orderId = id
    · have h2 : ¬ ((f t).orderId = id2) := by rw [hf t, h1]; exact fun e => h e.symm
      have h3 : ¬ (t.orderId = id2) := by rw [h1]; exact fun e => h e.symm
      simp [updFirst, findTxn, h1, h2, h3, Ne.symm h]
    · by_cases h3 : t.orderId = id2 <;> simp [updFirst, findTxn, h1, h3, ih, h]

theorem lotQ_updFirst_of_ne (f : Txn → Txn) (hf : ∀ t, (f t).orderId = t.orderId)
    {id id2 : String} (h : id2 ≠ id) (recs : List Txn) :
    lotQ (updFirst id f recs) id2 = lotQ recs id2 := by
  simp [lotQ, findTxn_updFirst_of_ne f hf h]

theorem specMatchedTotal_nonneg {lots : List LotView} (h : ∀ l ∈ lots, 0 ≤ l.qty) :
    0 ≤ specMatchedTotal lots := by
  unfold specMatchedTotal
  induction lots with
  | nil => simp
  | cons l rest ih =>
    simp only [List.map_cons, List.sum_cons]
    have h1 := h l (by simp)
    have h2 := ih (fun x hx => h x (by simp [hx]))
    linarith

theorem specFIFO_exhaust : ∀ (lots : List LotView) (rem : ℚ),
    (∀ l ∈ lots, 0 ≤ l.qty) → specMatchedTotal lots < rem →
    specFIFO rem lots = lots := by
  intro lots
  induction lots with
  | nil => intro rem _ _; rfl
  | cons l rest ih =>
    intro rem h hex
    have hq : 0 ≤ l.qty := h l (by simp)
    have hrest : ∀ x ∈ rest, 0 ≤ x.qty := fun x hx => h x (by simp [hx])
    have hsum : 0 ≤ specMatchedTotal rest := specMatchedTotal_nonneg hrest
    have htot : l.qty + specMatchedTotal rest < rem := by
      simpa [specMatchedTotal] using hex
    have hrem : ¬ rem ≤ 0 := by push_neg; linarith
    have hmin : min rem l.qty = l.qty := min_eq_right (by linarith)
    simp only [specFIFO, hrem, if_false, hmin]
    rw [ih (rem - l.qty) hrest (by linarith)]

theorem matchLoop_spec (sp : ℚ) :
    ∀ (ids : List String) (st : LoopState),
      ids.Nodup →
      (∀ id ∈ ids, (findTxn st.recs id).isSome) →
      (matchLoop sp ids st).matched.map matchView =
          st.matched.map matchView ++
            specFIFO st.remaining (ids.map fun x => ⟨x, lotQ st.recs x, lotP st.recs x⟩) ∧
      (matchLoop sp ids st).total =
          st.total +
            specProfit sp
              (specFIFO st.remaining (ids.map fun x => ⟨x, lotQ st.recs x, lotP st.recs x⟩)) ∧
      (matchLoop sp ids st).remaining =
          st.remaining -
            specMatchedTotal
              (specFIFO st.remaining (ids.map fun x => ⟨x, lotQ st.recs x, lotP st.recs x⟩)) := by
  intro ids
  induction ids with
  | nil =>
    intro st _ _
    simp [matchLoop, specFIFO, specProfit, specMatchedTotal]
  | cons id rest ih =>
    intro st hnd hsome
    by_cases hrem : st.remaining ≤ 0
    · simp [matchLoop, hrem, specFIFO, specProfit, specMatchedTotal]
    · obtain ⟨r, hr⟩ := Option.isSome_iff_exists.mp (hsome id (by simp))
      have hQ : lotQ st.recs id = r.quantity := by simp [lotQ, hr]
      have hP : lotP st.recs id = r.price := by simp [lotP, hr]
      have hnin : id ∉ rest := (List.nodup_cons.mp hnd).1
      have hndrest : rest.Nodup := (List.nodup_cons.mp hnd).2
      have hstep : ∃ st2 : LoopState,
          matchLoop sp (id :: rest) st = matchLoop sp rest st2 ∧
          (∀ x ∈ rest, findTxn st2.recs x = findTxn st.recs x) ∧
          st2.matched.map matchView =
            st.matched.map matchView ++ [⟨id, min st.remaining r.quantity, r.price⟩] ∧
          st2.total = st.total +
            (sp * min st.remaining r.quantity - r.price * min st.remaining r.quantity) ∧
          st2.remaining = st.remaining - min st.remaining r.quantity := by
        have hpair : ∀ g : Txn → Txn, (∀ t, (g t).orderId = t.orderId) →
            ∀ x ∈ rest, findTxn (updFirst id g (updFirst id g st.recs)) x = findTxn st.recs x := by
          intro g hg x hx
          have hne : x ≠ id := fun e => hnin (e ▸ hx)
          rw [findTxn_updFirst_of_ne g hg hne, findTxn_updFirst_of_ne g hg hne]
        simp only [matchLoop, hr]
        rw [if_neg hrem]
        split
        · exact ⟨_, rfl, hpair _ (fun t => rfl), by simp [matchView], rfl, rfl⟩
        · exact ⟨_, rfl, hpair _ (fun t => rfl), by simp [matchView], rfl, rfl⟩
      obtain ⟨st2, heq, hpres, hm, ht, hrm⟩ := hstep
      have hmaps : (rest.map fun x => (⟨x, lotQ st2.recs x, lotP st2.recs x⟩ : LotView)) =
          rest.map fun x => ⟨x, lotQ st.recs x, lotP st.recs x⟩ :=
        List.map_congr_left fun x hx => by simp [lotQ, lotP, hpres x hx]
      have hsome2 : ∀ x ∈ rest, (findTxn st2.recs x).isSome := fun x hx => by
        rw [hpres x hx]; exact hsome x (by simp [hx])
      obtain ⟨ih1, ih2, ih3⟩ := ih st2 hndrest hsome2
      rw [hmaps] at ih1 ih2 ih3
      rw [hm] at ih1
      rw [ht] at ih2
      rw [hrm] at ih1 ih2 ih3
      have hspec : specFIFO st.remaining
            ((id :: rest).map fun x => (⟨x, lotQ st.recs x, lotP st.recs x⟩ : LotView)) =
          ⟨id, min st.remaining r.quantity, r.price⟩ ::
            specFIFO (st.remaining - min st.remaining r.quantity)
              (rest.map fun x => ⟨x, lotQ st.recs x, lotP st.recs x⟩) := by
        simp only [List.map_cons, specFIFO]
        rw [if_neg hrem, hQ, hP]
      refine ⟨?_, ?_, ?_⟩
      · rw [heq, ih1, hspec]
        simp
      · rw [heq, ih2, hspec]
        simp only [specProfit, List.map_cons, List.sum_cons]
        ring
      · rw [heq, ih3, hspec]
        simp only [specMatchedTotal, List.map_cons, List.sum_cons]
        ring

theorem calcProfit_spec (L : Ledger) (s : String) (sq sp : ℚ)
    (hnd : (openFor L.openPos s).Nodup)
    (hsome : ∀ id ∈ openFor L.openPos s, (findTxn L.recs id).isSome)
    (hsq : 0 < sq) :
    (calcProfit L s sq sp).1.matchedBuys.map matchView = specFIFO sq (lotViews L s) ∧
    (calcProfit L s sq sp).1.totalProfit = specProfit sp (specFIFO sq (lotViews L s)) ∧
    (calcProfit L s sq sp).1.unmatchedQuantity =
      (if 0 < sq - specMatchedTotal (specFIFO sq (lotViews L s))
       then sq - specMatchedTotal (specFIFO sq (lotViews L s)) else 0) := by
  by_cases hop : openFor L.openPos s = []
  · simp [calcProfit, hop, lotViews, specFIFO, specProfit, specMatchedTotal, hsq]
  · obtain ⟨h1, h2, h3⟩ := matchLoop_spec sp (openFor L.openPos s)
      ⟨L.recs, openFor L.openPos s, sq, [], 0⟩ hnd hsome
    simp only [calcProfit, hop, if_neg, lotViews]
    refine ⟨?_, ?_, ?_⟩
    · simpa using h1
    · simpa using h2
    · simp only [h3]
      rfl

/-- C1: for every sell on a symbol with open buy lots, the matcher consumes
lots oldest-first, matching `min(remaining, lot.quantity)` against each lot,
accumulating profit as `matched * (sellPrice - lot.price)` and stopping when
the remaining quantity reaches 0 or no lots are left (the matched buys and
total profit of `calculate_profit` coincide with the spec-level FIFO fold);
in particular for BUY(q1,p1), BUY(q2,p2), SELL(q1,p3) on one symbol the sell
matches entirely against the first lot and the realized profit is
q1*(p3-p1). -/
theorem fifo_matching (L : Ledger) (s : String) (sq sp : ℚ)
    (hnd : (openFor L.openPos s).Nodup)
    (hsome : ∀ id ∈ openFor L.openPos s, (findTxn L.recs id).isSome)
    (hsq : 0 < sq) :
    ((calcProfit L s sq sp).1.matchedBuys.map matchView = specFIFO sq (lotViews L s) ∧
     (calcProfit L s sq sp).1.totalProfit = specProfit sp (specFIFO sq (lotViews L s))) ∧
    (∀ (sym id1 id2 : String) (q1 q2 p1 p2 p3 : ℚ), 0 < q1 → id1 ≠ id2 →
      (calcProfit (twoLotLedger sym id1 id2 q1 p1 q2 p2) sym q1 p3).1.totalProfit
          = q1 * (p3 - p1) ∧
      (calcProfit (twoLotLedger sym id1 id2 q1 p1 q2 p2) sym q1 p3).1.matchedBuys.map matchView
          = [⟨id1, q1, p1⟩] ∧
      (calcProfit (twoLotLedger sym id1 id2 q1 p1 q2 p2) sym q1 p3).1.unmatchedQuantity = 0) := by
  constructor
  · obtain ⟨c1, c2, _⟩ := calcProfit_spec L s sq sp hnd hsome hsq
    exact ⟨c1, c2⟩
  · intro sym id1 id2 q1 q2 p1 p2 p3 hq1 hne
    have hopen : openFor (twoLotLedger sym id1 id2 q1 p1 q2 p2).openPos sym = [id1, id2] := by
      simp [twoLotLedger, openFor]
    have hf1 : findTxn (twoLotLedger sym id1 id2 q1 p1 q2 p2).recs id1
        = some (mkBuy sym id1 q1 p1) := by
      simp [twoLotLedger, findTxn, mkBuy]
    have hf2 : findTxn (twoLotLedger sym id1 id2 q1 p1 q2 p2).recs id2
        = some (mkBuy sym id2 q2 p2) := by
      simp [twoLotLedger, findTxn, mkBuy, hne]
    have hndL : (openFor (twoLotLedger sym id1 id2 q1 p1 q2 p2).openPos sym).Nodup := by
      rw [hopen]; simp [hne]
    have hsomeL : ∀ id ∈ openFor (twoLotLedger sym id1 id2 q1 p1 q2 p2).openPos sym,
        (findTxn (twoLotLedger sym id1 id2 q1 p1 q2 p2).recs id).isSome := by
      rw [hopen]
      intro x hx
      simp only [List.mem_cons, List.mem_singleton, List.not_mem_nil, or_false] at hx
      rcases hx with rfl | rfl
      · rw [hf1]; rfl
      · rw [hf2]; rfl
    obtain ⟨c1, c2, c3⟩ := calcProfit_spec (twoLotLedger sym id1 id2 q1 p1 q2 p2) sym q1 p3
      hndL hsomeL hq1
    have hviews : lotViews (twoLotLedger sym id1 id2 q1 p1 q2 p2) sym
        = [⟨id1, q1, p1⟩, ⟨id2, q2, p2⟩] := by
      simp [lotViews, hopen, lotQ, lotP, hf1, hf2, mkBuy]
    have hffo : specFIFO q1 [(⟨id1, q1, p1⟩ : LotView), ⟨id2, q2, p2⟩] = [⟨id1, q1, p1⟩] := by
      simp only [specFIFO]
      rw [if_neg (not_le.mpr hq1)]
      simp
    refine ⟨?_, ?_, ?_⟩
    · rw [c2, hviews, hffo]
      simp [specProfit]
    · rw [c1, hviews, hffo]
    · rw [c3, hviews, hffo]
      simp [specMatchedTotal]

/-- C1 witness: the FIFO instance at BUY(100,10), BUY(200,12), SELL(100,15):
profit 500, one matched buy, nothing unmatched. -/
theorem fifo_matching_witness :
    (0:ℚ) < 100 ∧ idA ≠ idB ∧
    (calcProfit (twoLotLedger symX idA idB 100 10 200 12) symX 100 15).1.totalProfit
        = 100 * (15 - 10) ∧
    (calcProfit (twoLotLedger symX idA idB 100 10 200 12) symX 100 15).1.matchedBuys.map matchView
        = [⟨idA, 100, 10⟩] ∧
    (calcProfit (twoLotLedger symX idA idB 100 10 200 12) symX 100 15).1.unmatchedQuantity = 0 := by
  have h := (fifo_matching ⟨[], []⟩ symX 1 1 (by simp [openFor]) (by simp [openFor]) one_pos).2
    symX idA idB 100 200 10 12 15 (by norm_num) (by decide)
  exact ⟨by norm_num, by decide, h.1, h.2.1, h.2.2⟩

/-- C3: a sell whose quantity exceeds the total open quantity (including the
no-open-lots case) returns normally, reports the shortfall as
`unmatchedQuantity` and limits the profit to the portion that matched (here
all lots are fully consumed, so the profit is the full FIFO profit over the
open lots). -/
theorem sell_exceeding_lots (L : Ledger) (s : String) (sq sp : ℚ)
    (hnd : (openFor L.openPos s).Nodup)
    (hsome : ∀ id ∈ openFor L.openPos s, (findTxn L.recs id).isSome)
    (hq : ∀ l ∈ lotViews L s, 0 ≤ l.qty)
    (hex : specMatchedTotal (lotViews L s) < sq) :
    (calcProfit L s sq sp).1.unmatchedQuantity = sq - specMatchedTotal (lotViews L s) ∧
    (calcProfit L s sq sp).1.totalProfit = specProfit sp (lotViews L s) := by
  have hsq : 0 < sq := lt_of_le_of_lt (specMatchedTotal_nonneg hq) hex
  obtain ⟨_, c2, c3⟩ := calcProfit_spec L s sq sp hnd hsome hsq
  rw [specFIFO_exhaust _ _ hq hex] at c2 c3
  constructor
  · rw [c3, if_pos (by linarith)]
  · exact c2

/-- C3 witness: SELL(50, 20) with no open lots at all gives
`unmatchedQuantity = 50` and profit 0. -/
theorem sell_exceeding_lots_witness :
    specMatchedTotal (lotViews ⟨[], []⟩ symX) < 50 ∧
    (calcProfit ⟨[], []⟩ symX 50 20).1.unmatchedQuantity = 50 ∧
    (calcProfit ⟨[], []⟩ symX 50 20).1.totalProfit = 0 := by
  have h := sell_exceeding_lots ⟨[], []⟩ symX 50 20
    (by simp [openFor]) (by simp [openFor]) (by simp [lotViews, openFor])
    (by simp [lotViews, openFor, specMatchedTotal])
  refine ⟨by simp [lotViews, openFor, specMatchedTotal], ?_, ?_⟩
  · rw [h.1]
    simp [lotViews, openFor, specMatchedTotal]
  · rw [h.2]
    simp [lotViews, openFor, specProfit]

theorem openFor_assocSet (m : List (String × List String)) (k : String) (l : List String)
    (s : String) : openFor (assocSet m k l) s = if k = s then l else openFor m s := by
  induction m with
  | nil => simp [assocSet, openFor]
  | cons p rest ih =>
    obtain ⟨k1, l1⟩ := p
    by_cases h1 : k1 = k
    · subst h1
      by_cases h2 : k1 = s <;> simp [assocSet, openFor, h2]
    · by_cases h2 : k1 = s
      · subst h2
        have : ¬ k = k1 := fun e => h1 e.symm
        simp [assocSet, openFor, h1, this]
      · simp [assocSet, openFor, h1, h2, ih]

theorem openFor_rebuild_aux (s : String) :
    ∀ (file : List Txn) (m : List (String × List String)),
      openFor (file.foldl rebuildStep m) s =
        openFor m s ++ (replayedFor file s).map Txn.orderId := by
  intro file
  induction file with
  | nil => intro m; simp [replayedFor]
  | cons t ts ih =>
    intro m
    by_cases hb : t.action = actBuy ∧ t.closed = false
    · by_cases hs : t.symbol = s
      · have hstep : rebuildStep m t = assocSet m s (openFor m s ++ [t.orderId]) := by
          simp [rebuildStep, hb, assocAppend, hs]
        have hrepl : replayedFor (t :: ts) s = t :: replayedFor ts s := by
          simp [replayedFor, hb.1, hb.2, hs]
        simp only [List.foldl_cons, hstep, ih, hrepl, List.map_cons]
        rw [openFor_assocSet]
        simp
      · have hstep : rebuildStep m t = assocSet m t.symbol (openFor m t.symbol ++ [t.orderId]) := by
          simp [rebuildStep, hb, assocAppend]
        have hrepl : replayedFor (t :: ts) s = replayedFor ts s := by
          simp [replayedFor, hs]
        simp only [List.foldl_cons, hstep, ih, hrepl]
        rw [openFor_assocSet]
        simp [hs]
    · have hstep : rebuildStep m t = m := by simp [rebuildStep, hb]
      have hrepl : replayedFor (t :: ts) s = replayedFor ts s := by
        rcases not_and_or.mp hb with hb1 | hb2
        · simp [replayedFor, hb1]
        · simp [replayedFor, hb2]
      simp only [List.foldl_cons, hstep, ih, hrepl]

theorem replayedFor_sublist (s : String) : ∀ file : List Txn, (replayedFor file s).Sublist file := by
  intro file
  induction file with
  | nil => simp [replayedFor]
  | cons t ts ih =>
    by_cases h : t.action = actBuy ∧ t.closed = false ∧ t.symbol = s
    · simpa [replayedFor, h] using ih.cons₂ t
    · simpa [replayedFor, h] using ih.cons t

/-- C7: rebuilding the open-lot store from a transaction history is
deterministic and idempotent — a second `load_transactions` of the same
history yields exactly the same LotStore; each symbol's rebuilt open-lot
list consists precisely of the order ids of its not-closed buy transactions,
in history order (so nothing closed is re-opened), and with distinct order
ids it contains no duplicate lots. -/
theorem rebuild_idempotent (L : Ledger) (file : List Txn) :
    loadTransactions (loadTransactions L file) file = loadTransactions L file ∧
    (∀ s, openFor (loadTransactions L file).openPos s = (replayedFor file s).map Txn.orderId) ∧
    ((file.map Txn.orderId).Nodup →
      ∀ s, (openFor (loadTransactions L file).openPos s).Nodup) := by
  have hchar : ∀ s, openFor (loadTransactions L file).openPos s
      = (replayedFor file s).map Txn.orderId := by
    intro s
    have h := openFor_rebuild_aux s file []
    simpa [loadTransactions, rebuildOpen, openFor] using h
  refine ⟨rfl, hchar, ?_⟩
  intro hnd s
  rw [hchar s]
  exact ((replayedFor_sublist s file).map Txn.orderId).nodup hnd

/-- C7 witness: a four-record history (an open buy, a closed buy, a sell,
and an open buy of another symbol) rebuilds to exactly its open buys, with
no duplicates. -/
theorem rebuild_idempotent_witness :
    ((([mkBuy symX idA 5 2, { mkBuy symX idB 7 3 with closed := true },
        ⟨symX, actSell, 4, 6, idC, false, false, some 1, some 1, []⟩,
        mkBuy symY idD 9 4] : List Txn).map Txn.orderId).Nodup) ∧
    openFor (loadTransactions ⟨[], []⟩
        [mkBuy symX idA 5 2, { mkBuy symX idB 7 3 with closed := true },
         ⟨symX, actSell, 4, 6, idC, false, false, some 1, some 1, []⟩,
         mkBuy symY idD 9 4]).openPos symX = [idA] ∧
    openFor (loadTransactions ⟨[], []⟩
        [mkBuy symX idA 5 2, { mkBuy symX idB 7 3 with closed := true },
         ⟨symX, actSell, 4, 6, idC, false, false, some 1, some 1, []⟩,
         mkBuy symY idD 9 4]).openPos symY = [idD] ∧
    (openFor (loadTransactions ⟨[], []⟩
        [mkBuy symX idA 5 2, { mkBuy symX idB 7 3 with closed := true },
         ⟨symX, actSell, 4, 6, idC, false, false, some 1, some 1, []⟩,
         mkBuy symY idD 9 4]).openPos symX).Nodup := by
  have h := rebuild_idempotent ⟨[], []⟩
    [mkBuy symX idA 5 2, { mkBuy symX idB 7 3 with closed := true },
     ⟨symX, actSell, 4, 6, idC, false, false, some 1, some 1, []⟩,
     mkBuy symY idD 9 4]
  refine ⟨by with_unfolding_all decide, ?_, ?_, ?_⟩
  · rw [h.2.1 symX]
    with_unfolding_all decide
  · rw [h.2.1 symY]
    with_unfolding_all decide
  · exact h.2.2 (by with_unfolding_all decide) symX

/-- C4: for a buy with `fundLimit > 0` whose amount would exceed the limit,
the quantity is clamped to `floor((fundLimit - usedFunds) / price)` (the
code's `int()` truncation agrees with the floor whenever the clamp is
accepted); when that floor is non-positive the order is aborted, and
`place_order` then returns `None` with the state unchanged — no ledger
mutation. -/
theorem fund_limit_clamp (fl used q p : ℚ) (hfl : 0 < fl) (hover : fl < used + q * p) :
    (0 < ⌊(fl - used) / p⌋ →
      fundStage fl used q p = some ((⌊(fl - used) / p⌋ : ℤ) : ℚ)) ∧
    (⌊(fl - used) / p⌋ ≤ 0 → fundStage fl used q p = none) ∧
    (∀ (cfg : OrderCfg) (st : MonState) (sym : String) (broker : Option String) (mockId : String),
      cfg.fundLimit = fl → ⌊(fl - used) / p⌋ ≤ 0 →
      placeOrder cfg st sym actBuy q p used broker mockId = (none, st)) := by
  have hn : fundStage fl used q p =
      (if 0 < pyInt ((fl - used) / p) then some ((pyInt ((fl - used) / p) : ℤ) : ℚ) else none) := by
    simp [fundStage, hfl, hover]
  have habort : ⌊(fl - used) / p⌋ ≤ 0 → fundStage fl used q p = none := by
    intro hle
    have hpy : pyInt ((fl - used) / p) ≤ 0 := pyInt_nonpos hle
    rw [hn, if_neg (not_lt.mpr hpy)]
  refine ⟨?_, habort, ?_⟩
  · intro hpos
    have h1 : (1:ℚ) ≤ (fl - used) / p := by
      have h2 : (1:ℤ) ≤ ⌊(fl - used) / p⌋ := hpos
      have h3 := Int.le_floor.mp h2
      exact_mod_cast h3
    have h0 : (0:ℚ) ≤ (fl - used) / p := le_trans zero_le_one h1
    have hpy : pyInt ((fl - used) / p) = ⌊(fl - used) / p⌋ := pyInt_eq_floor h0
    have hpypos : 0 < pyInt ((fl - used) / p) := by rw [hpy]; exact hpos
    rw [hn, if_pos hpypos, hpy]
  · intro cfg st sym broker mockId hcfg hle
    have hfs : fundStage cfg.fundLimit used q p = none := by rw [hcfg]; exact habort hle
    simp [placeOrder, hfs]

/-- C4 witness: fundLimit 1000, used 800, BUY 50@10 clamps to 20; used 1000
aborts and leaves the state untouched. -/
theorem fund_limit_clamp_witness :
    (0:ℚ) < 1000 ∧ (1000:ℚ) < 800 + 50 * 10 ∧ (1000:ℚ) < 1000 + 50 * 10 ∧
    fundStage 1000 800 50 10 = some 20 ∧
    fundStage 1000 1000 50 10 = none ∧
    placeOrder ⟨1000, 100000, true⟩ ⟨⟨[], []⟩, []⟩ symX actBuy 50 10 1000 (some oidX) mockX
      = (none, ⟨⟨[], []⟩, []⟩) := by
  have hfloor1 : (0:ℤ) < ⌊((1000:ℚ) - 800) / 10⌋ := by with_unfolding_all decide
  have hfloor2 : ⌊((1000:ℚ) - 1000) / 10⌋ ≤ 0 := by with_unfolding_all decide
  have h1 := (fund_limit_clamp 1000 800 50 10 (by norm_num) (by norm_num)).1 hfloor1
  have h2 := (fund_limit_clamp 1000 1000 50 10 (by norm_num) (by norm_num)).2.1 hfloor2
  have h3 := (fund_limit_clamp 1000 1000 50 10 (by norm_num) (by norm_num)).2.2
    ⟨1000, 100000, true⟩ ⟨⟨[], []⟩, []⟩ symX (some oidX) mockX rfl hfloor2
  refine ⟨by norm_num, by norm_num, by norm_num, ?_, h2, h3⟩
  rw [h1]
  with_unfolding_all decide

/-- C5 counterexample: maxPosition 1000 with position value already 1000
(zero headroom) — the claim demands rejection with PositionLimitExceeded,
but `place_order` submits the buy with quantity 1. -/
theorem position_clamp_counterexample :
    (placeOrder ⟨0, 1000, true⟩ ⟨⟨[], []⟩, [(symX, 1000)]⟩ symX actBuy 50 10 0
        (some oidX) mockX).1
      = some ⟨symX, actBuy, 1, 10, oidX, false, false, none, none, []⟩ ∧
    (placeOrder ⟨0, 1000, true⟩ ⟨⟨[], []⟩, [(symX, 1000)]⟩ symX actBuy 50 10 0
        (some oidX) mockX).1 ≠ none := by
  constructor
  · with_unfolding_all decide
  · with_unfolding_all decide

/-- C5 (amended): when the symbol's position value plus the transaction
amount exceeds maxPositionValue, the buy quantity is clamped to
`max(1, int(headroom / price))` — at minimum 1 share — and the order is
still submitted (never rejected), even when the headroom is non-positive. -/
theorem position_clamp (cfg : OrderCfg) (st : MonState) (sym : String) (q p used : ℚ)
    (oid mockId : String) (hfl : cfg.fundLimit = 0)
    (hover : cfg.maxPosition < valOf st.posValue sym + q * p) :
    (placeOrder cfg st sym actBuy q p used (some oid) mockId).1 =
      some ⟨sym, actBuy, max 1 ((pyInt ((cfg.maxPosition - valOf st.posValue sym) / p) : ℤ) : ℚ),
        p, oid, false, false, none, none, []⟩ ∧
    openFor (placeOrder cfg st sym actBuy q p used (some oid) mockId).2.ledger.openPos sym =
      openFor st.ledger.openPos sym ++ [oid] := by
  have hfs : fundStage cfg.fundLimit used q p = some q := by
    simp [fundStage, hfl]
  have hps : positionStage cfg.maxPosition (valOf st.posValue sym) q p =
      max 1 ((pyInt ((cfg.maxPosition - valOf st.posValue sym) / p) : ℤ) : ℚ) := by
    simp [positionStage, hover]
  constructor
  · simp [placeOrder, hfs, hps, realFill, actBuy, actSell]
  · simp [placeOrder, hfs, hps, realFill, actBuy, actSell, assocAppend, openFor_assocSet]

/-- C5 witness: maxPosition 1000, position value 900, BUY 50@10: clamped to
`max(1, int(100/10)) = 10` and submitted. -/
theorem position_clamp_witness :
    ((⟨0, 1000, true⟩ : OrderCfg).fundLimit = 0) ∧
    ((⟨0, 1000, true⟩ : OrderCfg).maxPosition <
      valOf (⟨⟨[], []⟩, [(symX, 900)]⟩ : MonState).posValue symX + 50 * 10) ∧
    ((placeOrder ⟨0, 1000, true⟩ ⟨⟨[], []⟩, [(symX, 900)]⟩ symX actBuy 50 10 0
        (some oidX) mockX).1
      = some ⟨symX, actBuy,
          max 1 ((pyInt (((⟨0, 1000, true⟩ : OrderCfg).maxPosition -
            valOf (⟨⟨[], []⟩, [(symX, 900)]⟩ : MonState).posValue symX) / 10) : ℤ) : ℚ),
          10, oidX, false, false, none, none, []⟩) ∧
    (max 1 ((pyInt (((1000:ℚ) - 900) / 10) : ℤ) : ℚ)) = 10 := by
  refine ⟨rfl, by with_unfolding_all decide, ?_, by with_unfolding_all decide⟩
  exact (position_clamp ⟨0, 1000, true⟩ ⟨⟨[], []⟩, [(symX, 900)]⟩ symX 50 10 0 oidX mockX rfl
    (by with_unfolding_all decide)).1

/-- C6 counterexample: broker-reported available quantity 0 but simulated
position value 100 at price 10 — the claim demands a NoPosition rejection,
but `process_stock` derives a cap of 10 from the simulated position and
executes the sell of 5. -/
theorem sell_available_gate_counterexample :
    processSellDecision 0 100 10 5 = some 5 ∧
    ((processSell ⟨0, 100000, true⟩ ⟨⟨[], []⟩, [(symX, 100)]⟩ symX 5 10 0 0
        (some oidX) mockX).1).map Txn.quantity = some 5 := by
  constructor
  · with_unfolding_all decide
  · with_unfolding_all decide

/-- C6 (amended): the executed sell quantity is
`min(requested, int(available))` whenever the broker-reported available
quantity is at least 1; when `available < 1` but the simulated position
value is positive the cap instead falls back to the ledger-derived
`int(positionValue / price)`; the sell is skipped only when both the
available quantity and the position value are non-positive (or the clamped
quantity is non-positive), and the quantity handed to `place_order` is
executed unchanged. -/
theorem sell_available_gate (a pv pr req : ℚ) :
    (1 ≤ a → processSellDecision a pv pr req =
      (if 0 < min req ((pyInt a : ℤ) : ℚ) then some (min req ((pyInt a : ℤ) : ℚ)) else none)) ∧
    (a ≤ 0 → pv ≤ 0 → processSellDecision a pv pr req = none) ∧
    (a < 1 → 0 < pv → processSellDecision a pv pr req =
      (if 0 < min req ((pyInt (pv / pr) : ℤ) : ℚ) then some (min req ((pyInt (pv / pr) : ℤ) : ℚ))
       else none)) ∧
    (∀ (cfg : OrderCfg) (st : MonState) (sym : String) (used : ℚ) (oid mockId : String) (qq : ℚ),
      processSellDecision a (valOf st.posValue sym) pr req = some qq →
      ((processSell cfg st sym req pr a used (some oid) mockId).1).map Txn.quantity = some qq) := by
  refine ⟨?_, ?_, ?_, ?_⟩
  · intro h1
    have ha : 0 < a := lt_of_lt_of_le one_pos h1
    have hpy : 0 < pyInt a := pyInt_pos.mpr h1
    have hcast : (0:ℚ) < ((pyInt a : ℤ) : ℚ) := by exact_mod_cast hpy
    simp [processSellDecision, ha, not_le.mpr hcast]
  · intro h1 h2
    have hcond : ¬ (0 < a ∨ 0 < pv) := by
      push_neg
      exact ⟨h1, h2⟩
    simp [processSellDecision, hcond]
  · intro h1 h2
    have hpy : pyInt a ≤ 0 := by
      by_contra hc
      push_neg at hc
      exact absurd (pyInt_pos.mp hc) (not_le.mpr h1)
    have hcast : ((pyInt a : ℤ) : ℚ) ≤ 0 := by exact_mod_cast hpy
    simp [processSellDecision, h2, hcast]
  · intro cfg st sym used oid mockId qq hdec
    unfold processSell
    rw [hdec]
    simp [placeOrder, realFill, actBuy, actSell]

/-- C6 witness: available 10, requested 4 ⇒ the sell is gated to
`min(4, int(10)) = 4`. -/
theorem sell_available_gate_witness :
    (1:ℚ) ≤ 10 ∧
    processSellDecision 10 0 10 4 =
      (if 0 < min 4 ((pyInt 10 : ℤ) : ℚ) then some (min 4 ((pyInt 10 : ℤ) : ℚ)) else none) ∧
    (if 0 < min (4:ℚ) ((pyInt 10 : ℤ) : ℚ) then some (min (4:ℚ) ((pyInt 10 : ℤ) : ℚ)) else none)
      = some 4 := by
  refine ⟨by norm_num, (sell_available_gate 10 0 10 4).1 (by norm_num), ?_⟩
  with_unfolding_all decide

/-- C9: a failed broker submission with fallback enabled produces a
transaction processed under exactly the same ledger-update rules as a real
fill with the same order id: the returned transaction, the history, the
open-lot store and the simulated positions agree up to the `simulated`
marker (in particular all profit figures are identical). -/
theorem simulated_fallback_equiv (cfg : OrderCfg) (st : MonState) (sym act : String)
    (q p used : ℚ) (oid mockId : String) (hfb : cfg.fallbackSim = true) :
    ((placeOrder cfg st sym act q p used none oid).1).map clearSim =
      ((placeOrder cfg st sym act q p used (some oid) mockId).1).map clearSim ∧
    (placeOrder cfg st sym act q p used none oid).2.posValue =
      (placeOrder cfg st sym act q p used (some oid) mockId).2.posValue ∧
    (placeOrder cfg st sym act q p used none oid).2.ledger.openPos =
      (placeOrder cfg st sym act q p used (some oid) mockId).2.ledger.openPos ∧
    ((placeOrder cfg st sym act q p used none oid).2.ledger.recs).map clearSim =
      ((placeOrder cfg st sym act q p used (some oid) mockId).2.ledger.recs).map clearSim := by
  unfold placeOrder
  cases hfs : (if act = actBuy then fundStage cfg.fundLimit used q p else some q) with
  | none => simp
  | some q1 =>
    simp only [hfb, if_true]
    unfold realFill simFill
    by_cases hact : act = actSell
    · simp [hact, clearSim]
    · simp [hact, clearSim]

/-- C9 witness: the equivalence instantiated at a concrete buy under a
fallback-enabled configuration. -/
theorem simulated_fallback_equiv_witness :
    ((⟨0, 100000, true⟩ : OrderCfg).fallbackSim = true) ∧
    ((placeOrder ⟨0, 100000, true⟩ ⟨⟨[], []⟩, []⟩ symX actBuy 5 10 0 none oidX).1).map clearSim =
      ((placeOrder ⟨0, 100000, true⟩ ⟨⟨[], []⟩, []⟩ symX actBuy 5 10 0
          (some oidX) mockX).1).map clearSim := by
  exact ⟨rfl,
    (simulated_fallback_equiv ⟨0, 100000, true⟩ ⟨⟨[], []⟩, []⟩ symX actBuy 5 10 0 oidX mockX
      rfl).1⟩

/-- C2 (the code evaluated at the failing input): BUY(100,10), BUY(100,12),
SELL(150,15) yields total profit 650 with nothing unmatched and one open lot
left — but that lot's recorded quantity is 0, not the claimed 50, because
the partial match is subtracted a second time through the aliased history
record (stock_monitor.py lines 210 and 213-216). -/
theorem partial_match_eval :
    (calcProfit (twoLotLedger symX idA idB 100 10 100 12) symX 150 15).1.totalProfit = 650 ∧
    (calcProfit (twoLotLedger symX idA idB 100 10 100 12) symX 150 15).1.unmatchedQuantity = 0 ∧
    openFor (calcProfit (twoLotLedger symX idA idB 100 10 100 12) symX 150 15).2.openPos symX
      = [idB] ∧
    lotQ (calcProfit (twoLotLedger symX idA idB 100 10 100 12) symX 150 15).2.recs idB = 0 ∧
    lotQ (calcProfit (twoLotLedger symX idA idB 100 10 100 12) symX 150 15).2.recs idB ≠ 50 := by
  refine ⟨?_, ?_, ?_, ?_, ?_⟩ <;> with_unfolding_all decide

/-- C10 (the code evaluated at the failing input): matching a sell of AAPL
leaves MSFT's open-lot list and MSFT's transaction untouched (the frame
part holds here), but the partially consumed AAPL lot stays in the store
with quantity 0 — the claimed `quantity > 0` invariant is violated by the
double decrement through the aliased history record. -/
theorem frame_invariant_eval :
    openFor (calcProfit ⟨[mkBuy symX idA 100 10, mkBuy symX idB 100 12, mkBuy symY idC 30 7],
        [(symX, [idA, idB]), (symY, [idC])]⟩ symX 150 15).2.openPos symY = [idC] ∧
    findTxn (calcProfit ⟨[mkBuy symX idA 100 10, mkBuy symX idB 100 12, mkBuy symY idC 30 7],
        [(symX, [idA, idB]), (symY, [idC])]⟩ symX 150 15).2.recs idC
      = some (mkBuy symY idC 30 7) ∧
    idB ∈ openFor (calcProfit ⟨[mkBuy symX idA 100 10, mkBuy symX idB 100 12,
        mkBuy symY idC 30 7],
        [(symX, [idA, idB]), (symY, [idC])]⟩ symX 150 15).2.openPos symX ∧
    ¬ (0 < lotQ (calcProfit ⟨[mkBuy symX idA 100 10, mkBuy symX idB 100 12,
        mkBuy symY idC 30 7],
        [(symX, [idA, idB]), (symY, [idC])]⟩ symX 150 15).2.recs idB) := by
  refine ⟨?_, ?_, ?_, ?_⟩ <;> with_unfolding_all decide

end AlphaNex
